import Mathlib

/-!
Shallow embedding of `BlazorConsultant/wwwroot/tools/generate-icons.py`,
the TailorBlend PWA icon generator.

Conventions of the embedding:
* Python real arithmetic (`y / size`, `size * 0.45`, `size * 0.2`) is modelled
  exactly over `ℚ`; the decimal constants `0.45` and `0.2` are the rationals
  `45/100` and `2/10`.
* Python `int(x)` truncates toward zero; it is modelled by `pyInt`.
* Python strings are modelled as `List Char`; fallible parsing (`int(s, 16)`
  raising `ValueError`) is modelled with `Option`.
* A PIL RGBA image is a `width × height` grid of integer channel tuples,
  modelled as a total pixel function together with its dimensions.
* PIL primitives called by the script (`ImageDraw.line`, `rounded_rectangle`,
  `putalpha`, font loading and text drawing) are external library code; they
  are modelled from their documented behaviour as described in the spec, with
  fonts kept fully abstract (an arbitrary environment parameter).
-/

/-- An RGB colour triple, as returned by `hex_to_rgb`. -/
abbrev ColorRGB := ℤ × ℤ × ℤ

/-- An RGBA pixel value. -/
abbrev RGBA := ℤ × ℤ × ℤ × ℤ

/-- A PIL image: square canvases in the script, but width and height are kept
separate as in PIL.  The pixel function is total; only coordinates below the
dimensions are meaningful. -/
structure Image where
  width : ℕ
  height : ℕ
  px : ℕ → ℕ → RGBA

/-- `Image.new('RGBA', (size, size), (0, 0, 0, 0))`: a fully transparent
square canvas. -/
def Image.new (size : ℕ) : Image :=
  ⟨size, size, fun _ _ => (0, 0, 0, 0)⟩

/-- Python `int(x)` on a real value: truncation toward zero. -/
def pyInt (q : ℚ) : ℤ := if 0 ≤ q then ⌊q⌋ else -⌊-q⌋

/-- Python slicing `l[i:i+n]` (total: short or empty slices are allowed). -/
def pySlice (l : List Char) (i n : ℕ) : List Char := (l.drop i).take n

/-- One hexadecimal digit, as accepted by Python `int(_, 16)`:
code points 48–57 are `0`–`9`, 97–102 are `a`–`f`, 65–70 are `A`–`F`. -/
def hexDigit? (c : Char) : Option ℤ :=
  if 48 ≤ c.toNat ∧ c.toNat ≤ 57 then some ((c.toNat : ℤ) - 48)
  else if 97 ≤ c.toNat ∧ c.toNat ≤ 102 then some ((c.toNat : ℤ) - 87)
  else if 65 ≤ c.toNat ∧ c.toNat ≤ 70 then some ((c.toNat : ℤ) - 55)
  else none

/-- Accumulating base-16 evaluation of a digit string; fails on the first
non-hex character. -/
def parseHexDigits : List Char → ℤ → Option ℤ
  | [], acc => some acc
  | c :: cs, acc =>
    match hexDigit? c with
    | some d => parseHexDigits cs (16 * acc + d)
    | none => none

/-- Python `int(s, 16)` restricted to plain digit strings: fails on the empty
string and on any non-hex-digit character. -/
def parseHex (l : List Char) : Option ℤ :=
  if l = [] then none else parseHexDigits l 0

/-- `hex_color.lstrip('#')`: removes every leading `'#'`. -/
def lstripHash (l : List Char) : List Char := l.dropWhile (fun c => c == '#')

/-- `hex_to_rgb`: strips leading `'#'` characters, then parses the character
slices `[0:2]`, `[2:4]`, `[4:6]` as hexadecimal; any slice failure is an
error (`none`). -/
def hex_to_rgb (l : List Char) : Option ColorRGB :=
  let s := lstripHash l
  (parseHex (pySlice s 0 2)).bind fun r =>
    (parseHex (pySlice s 2 2)).bind fun g =>
      (parseHex (pySlice s 4 2)).map fun b => (r, g, b)

/-- The per-channel arithmetic of `interpolate_color`:
`int(c1 + (c2 - c1) * factor)` on each channel. -/
def interpolateRGB (a b : ColorRGB) (f : ℚ) : ColorRGB :=
  (pyInt ((a.1 : ℚ) + ((b.1 : ℚ) - (a.1 : ℚ)) * f),
   pyInt ((a.2.1 : ℚ) + ((b.2.1 : ℚ) - (a.2.1 : ℚ)) * f),
   pyInt ((a.2.2 : ℚ) + ((b.2.2 : ℚ) - (a.2.2 : ℚ)) * f))

/-- `interpolate_color(color1, color2, factor)`: parses both hex strings and
interpolates channelwise; a parse failure in either colour is an error. -/
def interpolate_color (c1 c2 : List Char) (f : ℚ) : Option ColorRGB :=
  match hex_to_rgb c1, hex_to_rgb c2 with
  | some a, some b => some (interpolateRGB a b f)
  | _, _ => none

/-- `COLOR_START = "#70D1C7"`. -/
def COLOR_START : List Char := ['#', '7', '0', 'D', '1', 'C', '7']

/-- `COLOR_END = "#5bbfb5"` (the source omits the `#` here: `"5bbfb5"`). -/
def COLOR_END : List Char := ['5', 'b', 'b', 'f', 'b', '5']

/-- `COLOR_TEXT = "#FFFFFF"`. -/
def COLOR_TEXT : List Char := ['#', 'F', 'F', 'F', 'F', 'F', 'F']

/-- `ImageDraw.line([(x0, y), (x1, y)], fill=color)` for a horizontal line on
an RGBA image: paints every in-bounds pixel of row `y` with abscissa in
`[x0, x1]` (PIL line endpoints are inclusive, and drawing is clipped to the
image); an RGB fill on an RGBA image receives full alpha `255`. -/
def drawHLine (img : Image) (x0 x1 y : ℕ) (c : ColorRGB) : Image :=
  { img with px := fun X Y =>
      if Y = y ∧ x0 ≤ X ∧ X ≤ x1 ∧ X < img.width ∧ Y < img.height
      then (c.1, c.2.1, c.2.2, 255) else img.px X Y }

/-- The colour painted on row `y` of a size-`s` gradient:
`interpolate_color(COLOR_START, COLOR_END, y / size)`.  The constants always
parse (`interpolate_color_const` below), so the `getD` default is
unreachable. -/
def gradColor (s y : ℕ) : ColorRGB :=
  (interpolate_color COLOR_START COLOR_END ((y : ℚ) / (s : ℚ))).getD (0, 0, 0)

/-- The loop `for y in range(n): draw.line([(0, y), (size, y)], fill=...)`:
rows `0, …, n-1` painted in increasing order. -/
def paintRows (s : ℕ) : ℕ → Image → Image
  | 0, img => img
  | n + 1, img => drawHLine (paintRows s n img) 0 s n (gradColor s n)

/-- `create_gradient_background(size)`: a fresh fully transparent RGBA canvas
with every row `y` painted with the interpolated colour at factor
`y / size`. -/
def create_gradient_background (s : ℕ) : Image :=
  paintRows s s (Image.new s)

/-- Modelled from the spec: Pillow's `ImageDraw.rounded_rectangle` rasterizer
is external library code (not under `src/`).  Following §4.3, the mask is a
filled rounded rectangle spanning the full canvas with corner radius
`radius`: a pixel is cut away at the top-left corner exactly when it lies in
the corner square and strictly outside the quarter disc of radius `radius`
centred `radius` pixels in from that corner of the pixel grid. -/
def outTL (r : ℚ) (x y : ℕ) : Prop :=
  (x : ℚ) < r ∧ (y : ℚ) < r ∧ r ^ 2 < (r - (x : ℚ)) ^ 2 + (r - (y : ℚ)) ^ 2

/-- Top-right corner cut; the disc centre is `radius` in from the corner
pixel `(size - 1, 0)` of the grid. -/
def outTR (s : ℕ) (r : ℚ) (x y : ℕ) : Prop :=
  (s : ℚ) - 1 - r < (x : ℚ) ∧ (y : ℚ) < r ∧
    r ^ 2 < ((x : ℚ) - ((s : ℚ) - 1 - r)) ^ 2 + (r - (y : ℚ)) ^ 2

/-- Bottom-left corner cut. -/
def outBL (s : ℕ) (r : ℚ) (x y : ℕ) : Prop :=
  (x : ℚ) < r ∧ (s : ℚ) - 1 - r < (y : ℚ) ∧
    r ^ 2 < (r - (x : ℚ)) ^ 2 + ((y : ℚ) - ((s : ℚ) - 1 - r)) ^ 2

/-- Bottom-right corner cut. -/
def outBR (s : ℕ) (r : ℚ) (x y : ℕ) : Prop :=
  (s : ℚ) - 1 - r < (x : ℚ) ∧ (s : ℚ) - 1 - r < (y : ℚ) ∧
    r ^ 2 < ((x : ℚ) - ((s : ℚ) - 1 - r)) ^ 2 + ((y : ℚ) - ((s : ℚ) - 1 - r)) ^ 2

/-- A pixel of the size-`s` grid lies inside the rounded rectangle iff it is
cut away by none of the four corners. -/
def insideRoundedRect (s : ℕ) (r : ℚ) (x y : ℕ) : Prop :=
  ¬ (outTL r x y ∨ outTR s r x y ∨ outBL s r x y ∨ outBR s r x y)

instance (r : ℚ) (x y : ℕ) : Decidable (outTL r x y) := by
  unfold outTL; infer_instance

instance (s : ℕ) (r : ℚ) (x y : ℕ) : Decidable (outTR s r x y) := by
  unfold outTR; infer_instance

instance (s : ℕ) (r : ℚ) (x y : ℕ) : Decidable (outBL s r x y) := by
  unfold outBL; infer_instance

instance (s : ℕ) (r : ℚ) (x y : ℕ) : Decidable (outBR s r x y) := by
  unfold outBR; infer_instance

instance (s : ℕ) (r : ℚ) (x y : ℕ) : Decidable (insideRoundedRect s r x y) := by
  unfold insideRoundedRect; infer_instance

/-- Modelled from the spec: the single-channel mask built by
`add_rounded_corners` — `Image.new('L', (size, size), 0)` followed by
`draw.rounded_rectangle(..., radius=radius, fill=255)`.  In-bounds pixels
inside the rounded rectangle hold `255`; all other pixels hold the initial
`0`. -/
def roundedMaskAt (s : ℕ) (r : ℚ) (x y : ℕ) : ℤ :=
  if x < s ∧ y < s ∧ insideRoundedRect s r x y then 255 else 0

/-- `add_rounded_corners(img, radius)`: builds the mask for
`size = img.size[0]` and applies it with `img.putalpha(mask)`, which
replaces the image's alpha channel wholesale with the mask (the RGB
channels are untouched and the prior alpha is discarded, not blended). -/
def add_rounded_corners (img : Image) (radius : ℚ) : Image :=
  { img with px := fun X Y =>
      let p := img.px X Y
      (p.1, p.2.1, p.2.2.1, roundedMaskAt img.width radius X Y) }

/-- Modelled from the spec: a loaded PIL font is external state; only the
operations the script uses are modelled — `draw.textbbox` returns a bounding
box `(x0, y0, x1, y1)` and drawing queries glyph coverage at offsets from
the text origin. -/
structure PILFont where
  bbox : String → ℤ × ℤ × ℤ × ℤ
  glyph : String → ℤ → ℤ → Bool

/-- Modelled from the spec: the font-loading environment.
`truetype path font_size` may fail arbitrarily (any outcome of
`ImageFont.truetype`, modelled as `Option`); `load_default` is the
guaranteed-available built-in fallback of `ImageFont.load_default()`
(which takes no size argument). -/
structure FontEnv where
  truetype : String → ℤ → Option PILFont
  load_default : PILFont

/-- The macOS candidate font path. -/
def MAC_FONT : String := "/System/Library/Fonts/Supplemental/Arial Bold.ttf"

/-- The Linux candidate font path. -/
def LINUX_FONT : String := "/usr/share/fonts/truetype/dejavu/DejaVuSans-Bold.ttf"

/-- The Windows candidate font path. -/
def WIN_FONT : String := "C:\\Windows\\Fonts\\arialbd.ttf"

/-- `font_size = int(size * 0.45)`. -/
def font_size (size : ℕ) : ℤ := pyInt ((size : ℚ) * (45 / 100))

/-- The nested `try/except` chain of `draw_text`: macOS, then Linux, then
Windows, then `ImageFont.load_default()`.  Every failure is caught, so the
result is always a font. -/
def selectFont (env : FontEnv) (fs : ℤ) : PILFont :=
  match env.truetype MAC_FONT fs with
  | some f => f
  | none =>
    match env.truetype LINUX_FONT fs with
    | some f => f
    | none =>
      match env.truetype WIN_FONT fs with
      | some f => f
      | none => env.load_default

/-- The text drawn on every icon. -/
def TB_TEXT : String := "TB"

/-- `draw_text(img, text, size)`: computes the font size, selects a font,
measures the text bounding box, centres it, and draws the text in
`COLOR_TEXT` (white) at full opacity over the existing pixels.  Python `//`
is floor division (`Int.fdiv`). -/
def draw_text (env : FontEnv) (img : Image) (text : String) (size : ℕ) : Image :=
  let fs := font_size size
  let font := selectFont env fs
  let b := font.bbox text
  let w := b.2.2.1 - b.1
  let h := b.2.2.2 - b.2.1
  let x := ((size : ℤ) - w).fdiv 2
  let y := ((size : ℤ) - h).fdiv 2 - b.2.1
  let fill := (hex_to_rgb COLOR_TEXT).getD (0, 0, 0)
  { img with px := fun X Y =>
      if X < img.width ∧ Y < img.height ∧
          font.glyph text ((X : ℤ) - x) ((Y : ℤ) - y) = true
      then (fill.1, fill.2.1, fill.2.2, 255) else img.px X Y }

/-- One icon configuration of `ICON_CONFIGS`. -/
structure IconConfig where
  size : ℕ
  name : String
deriving DecidableEq

/-- The five fixed icon configurations. -/
def ICON_CONFIGS : List IconConfig :=
  [⟨16, "favicon-16.png"⟩, ⟨32, "favicon-32.png"⟩, ⟨180, "apple-touch-icon.png"⟩,
   ⟨192, "icon-192.png"⟩, ⟨512, "icon-512.png"⟩]

/-- `radius = int(size * 0.2)` in `generate_icon`. -/
def iconRadius (size : ℕ) : ℤ := pyInt ((size : ℚ) * (2 / 10))

/-- `generate_icon(config, output_dir)`: gradient background, rounded
corners with radius `int(size * 0.2)`, centred "TB" text, then the PNG is
written under the configured name.  The filesystem write is modelled as
returning the (filename, image) pair. -/
def generate_icon (env : FontEnv) (cfg : IconConfig) : String × Image :=
  let img := create_gradient_background cfg.size
  let img2 := add_rounded_corners img ((iconRadius cfg.size : ℤ) : ℚ)
  let img3 := draw_text env img2 TB_TEXT cfg.size
  (cfg.name, img3)

/-- `main()`: generates every configuration of `ICON_CONFIGS` in order
(directory creation and console output have no bearing on the image data
and are not modelled). -/
def mainOutputs (env : FontEnv) : List (String × Image) :=
  ICON_CONFIGS.map (fun cfg => generate_icon env cfg)

/-! ### Lemmas: `pyInt` and hex parsing -/

theorem pyInt_of_nonneg {q : ℚ} (h : 0 ≤ q) : pyInt q = ⌊q⌋ := if_pos h

theorem pyInt_intCast (a : ℤ) : pyInt ((a : ℤ) : ℚ) = a := by
  unfold pyInt
  split
  · exact_mod_cast Int.floor_intCast a
  · rw [← Int.cast_neg, Int.floor_intCast]; ring

theorem hexDigit?_bound {c : Char} {d : ℤ} (h : hexDigit? c = some d) :
    0 ≤ d ∧ d ≤ 15 := by
  unfold hexDigit? at h
  split_ifs at h with h1 h2 h3 <;> simp_all <;> omega

theorem parseHexDigits_total {l : List Char}
    (h : ∀ c ∈ l, (hexDigit? c).isSome = true) (a : ℤ) :
    ∃ v, parseHexDigits l a = some v := by
  induction l generalizing a with
  | nil => exact ⟨a, rfl⟩
  | cons c cs ih =>
    have hc : (hexDigit? c).isSome = true := h c (by simp)
    obtain ⟨d, hd⟩ := Option.isSome_iff_exists.mp hc
    simp only [parseHexDigits, hd]
    exact ih (fun x hx => h x (by simp [hx])) _

theorem parseHex_le2_bound {l : List Char} {v : ℤ} (hlen : l.length ≤ 2)
    (h : parseHex l = some v) : 0 ≤ v ∧ v ≤ 255 := by
  rcases l with - | ⟨c1, - | ⟨c2, - | ⟨c3, rest⟩⟩⟩
  · simp [parseHex] at h
  · rcases hc : hexDigit? c1 with - | d
    · simp [parseHex, parseHexDigits, hc] at h
    · have hb := hexDigit?_bound hc
      simp [parseHex, parseHexDigits, hc] at h
      omega
  · rcases hc1 : hexDigit? c1 with - | d1
    · simp [parseHex, parseHexDigits, hc1] at h
    · rcases hc2 : hexDigit? c2 with - | d2
      · simp [parseHex, parseHexDigits, hc1, hc2] at h
      · have hb1 := hexDigit?_bound hc1
        have hb2 := hexDigit?_bound hc2
        simp [parseHex, parseHexDigits, hc1, hc2] at h
        omega
  · simp at hlen

theorem pySlice_len_le (l : List Char) (i n : ℕ) : (pySlice l i n).length ≤ n := by
  simp [pySlice]

/-- `hex_to_rgb` succeeds exactly when all three slices parse, and returns
the three slice values. -/
theorem hex_to_rgb_eq_some {l : List Char} {rgb : ColorRGB} :
    hex_to_rgb l = some rgb ↔
      parseHex (pySlice (lstripHash l) 0 2) = some rgb.1 ∧
      parseHex (pySlice (lstripHash l) 2 2) = some rgb.2.1 ∧
      parseHex (pySlice (lstripHash l) 4 2) = some rgb.2.2 := by
  obtain ⟨r, g, b⟩ := rgb
  unfold hex_to_rgb
  simp only [Option.bind_eq_some, Option.map_eq_some']
  constructor
  · rintro ⟨r', h1, g', h2, b', h3, h4⟩
    obtain ⟨rfl, rfl, rfl⟩ : r' = r ∧ g' = g ∧ b' = b := by
      simpa [Prod.ext_iff] using h4
    exact ⟨h1, h2, h3⟩
  · rintro ⟨h1, h2, h3⟩
    exact ⟨r, h1, g, h2, b, h3, rfl⟩

theorem hex_to_rgb_bounds {l : List Char} {r g b : ℤ}
    (h : hex_to_rgb l = some (r, g, b)) :
    0 ≤ r ∧ r ≤ 255 ∧ 0 ≤ g ∧ g ≤ 255 ∧ 0 ≤ b ∧ b ≤ 255 := by
  obtain ⟨h1, h2, h3⟩ := hex_to_rgb_eq_some.mp h
  have b1 := parseHex_le2_bound (pySlice_len_le _ 0 2) h1
  have b2 := parseHex_le2_bound (pySlice_len_le _ 2 2) h2
  have b3 := parseHex_le2_bound (pySlice_len_le _ 4 2) h3
  exact ⟨b1.1, b1.2, b2.1, b2.2, b3.1, b3.2⟩

/-- The three colour constants of the script parse to the expected channel
triples. -/
theorem hex_start : hex_to_rgb COLOR_START = some (112, 209, 199) := by decide

theorem hex_end : hex_to_rgb COLOR_END = some (91, 191, 181) := by decide

theorem hex_text : hex_to_rgb COLOR_TEXT = some (255, 255, 255) := by decide

theorem interpolate_color_const (f : ℚ) :
    interpolate_color COLOR_START COLOR_END f =
      some (interpolateRGB (112, 209, 199) (91, 191, 181) f) := by
  unfold interpolate_color
  rw [hex_start, hex_end]

/-! ### Lemmas: the gradient canvas -/

theorem paintRows_width (s n : ℕ) (img : Image) :
    (paintRows s n img).width = img.width := by
  induction n with
  | zero => rfl
  | succ n ih => simpa [paintRows, drawHLine] using ih

theorem paintRows_height (s n : ℕ) (img : Image) :
    (paintRows s n img).height = img.height := by
  induction n with
  | zero => rfl
  | succ n ih => simpa [paintRows, drawHLine] using ih

theorem paintRows_px (s : ℕ) (img : Image) (hw : img.width = s)
    (hh : img.height = s) (n : ℕ) (hn : n ≤ s) (X Y : ℕ) :
    (paintRows s n img).px X Y =
      if Y < n ∧ X < s then
        ((gradColor s Y).1, (gradColor s Y).2.1, (gradColor s Y).2.2, 255)
      else img.px X Y := by
  induction n with
  | zero => simp [paintRows]
  | succ n ih =>
    have hw' : (paintRows s n img).width = s := by rw [paintRows_width, hw]
    have hh' : (paintRows s n img).height = s := by rw [paintRows_height, hh]
    have hn' : n ≤ s := Nat.le_of_succ_le hn
    rw [paintRows]
    simp only [drawHLine]
    rw [hw', hh', ih hn']
    split_ifs with h1 h2 h3 h4 h5 <;>
      first
        | rfl
        | omega
        | (obtain ⟨rfl, -⟩ := h1; rfl)

theorem cgb_width (s : ℕ) : (create_gradient_background s).width = s := by
  unfold create_gradient_background
  rw [paintRows_width]
  rfl

theorem cgb_height (s : ℕ) : (create_gradient_background s).height = s := by
  unfold create_gradient_background
  rw [paintRows_height]
  rfl

theorem gradient_px {s x y : ℕ} (hx : x < s) (hy : y < s) :
    (create_gradient_background s).px x y =
      ((gradColor s y).1, (gradColor s y).2.1, (gradColor s y).2.2, 255) := by
  unfold create_gradient_background
  rw [paintRows_px s (Image.new s) rfl rfl s le_rfl, if_pos ⟨hy, hx⟩]

theorem gradColor_eq (s y : ℕ) :
    gradColor s y =
      interpolateRGB (112, 209, 199) (91, 191, 181) ((y : ℚ) / (s : ℚ)) := by
  unfold gradColor
  rw [interpolate_color_const]
  rfl

/-! ### Lemmas: dimensions through the icon pipeline -/

theorem add_rounded_corners_px (img : Image) (r : ℚ) (X Y : ℕ) :
    (add_rounded_corners img r).px X Y =
      ((img.px X Y).1, (img.px X Y).2.1, (img.px X Y).2.2.1,
        roundedMaskAt img.width r X Y) := rfl

theorem add_rounded_corners_width (img : Image) (r : ℚ) :
    (add_rounded_corners img r).width = img.width := rfl

theorem add_rounded_corners_height (img : Image) (r : ℚ) :
    (add_rounded_corners img r).height = img.height := rfl

theorem draw_text_width (env : FontEnv) (img : Image) (t : String) (n : ℕ) :
    (draw_text env img t n).width = img.width := rfl

theorem draw_text_height (env : FontEnv) (img : Image) (t : String) (n : ℕ) :
    (draw_text env img t n).height = img.height := rfl

theorem generate_icon_name (env : FontEnv) (cfg : IconConfig) :
    (generate_icon env cfg).1 = cfg.name := rfl

theorem generate_icon_width (env : FontEnv) (cfg : IconConfig) :
    (generate_icon env cfg).2.width = cfg.size := by
  show (draw_text env _ _ _).width = cfg.size
  rw [draw_text_width, add_rounded_corners_width, cgb_width]

theorem generate_icon_height (env : FontEnv) (cfg : IconConfig) :
    (generate_icon env cfg).2.height = cfg.size := by
  show (draw_text env _ _ _).height = cfg.size
  rw [draw_text_height, add_rounded_corners_height, cgb_height]

/-! ### Claim C1 -/

/-- C1: every run of `main` processes exactly the five fixed IconSpecs, and
for the sizes 16, 32, 180, 192 and 512 the generator produces an image of
exactly size×size pixels recorded under the fixed filenames
`favicon-16.png`, `favicon-32.png`, `apple-touch-icon.png`, `icon-192.png`
and `icon-512.png` respectively in the output directory. -/
theorem C1_main_five_icons (env : FontEnv) :
    (mainOutputs env).map Prod.fst =
      ["favicon-16.png", "favicon-32.png", "apple-touch-icon.png",
       "icon-192.png", "icon-512.png"] ∧
    (mainOutputs env).map (fun p => (p.2.width, p.2.height)) =
      [(16, 16), (32, 32), (180, 180), (192, 192), (512, 512)] := by
  constructor
  · rfl
  · simp [mainOutputs, ICON_CONFIGS, generate_icon_width, generate_icon_height]

/-! ### Claim C2 -/

/-- C2: for every positive size, `create_gradient_background(size)` returns
a size×size RGBA canvas, built from a fully transparent canvas, in which
every pixel of each row `y` (for `0 ≤ y < size`) holds
`interpolate_color(COLOR_START, COLOR_END, y/size)` at full opacity
(alpha 255). -/
theorem C2_gradient_background (s x y : ℕ) (hs : 0 < s) (hx : x < s)
    (hy : y < s) :
    (create_gradient_background s).width = s ∧
    (create_gradient_background s).height = s ∧
    (Image.new s).px x y = (0, 0, 0, 0) ∧
    ∃ c : ColorRGB,
      interpolate_color COLOR_START COLOR_END ((y : ℚ) / (s : ℚ)) = some c ∧
      (create_gradient_background s).px x y = (c.1, c.2.1, c.2.2, 255) := by
  refine ⟨cgb_width s, cgb_height s, rfl, gradColor s y, ?_, gradient_px hx hy⟩
  rw [interpolate_color_const, gradColor_eq]

/-- Witness for C2: size 2, pixel (0, 1). -/
theorem C2_gradient_background_witness :
    (0 < 2 ∧ 0 < 2 ∧ 1 < 2) ∧
    ((create_gradient_background 2).width = 2 ∧
     (create_gradient_background 2).height = 2 ∧
     (Image.new 2).px 0 1 = (0, 0, 0, 0) ∧
     ∃ c : ColorRGB,
       interpolate_color COLOR_START COLOR_END (((1 : ℕ) : ℚ) / ((2 : ℕ) : ℚ)) = some c ∧
       (create_gradient_background 2).px 0 1 = (c.1, c.2.1, c.2.2, 255)) :=
  ⟨⟨by decide, by decide, by decide⟩,
    C2_gradient_background 2 0 1 (by decide) (by decide) (by decide)⟩

/-! ### Lemmas: interpolation endpoint laws -/

theorem pyInt_congr {q : ℚ} {a : ℤ} (h : q = (a : ℚ)) : pyInt q = a := by
  rw [h, pyInt_intCast]

theorem interpolateRGB_self (a : ColorRGB) (f : ℚ) :
    interpolateRGB a a f = a := by
  obtain ⟨a1, a2, a3⟩ := a
  unfold interpolateRGB
  rw [pyInt_congr (a := a1) (by ring), pyInt_congr (a := a2) (by ring),
    pyInt_congr (a := a3) (by ring)]

theorem interpolateRGB_zero (a b : ColorRGB) : interpolateRGB a b 0 = a := by
  obtain ⟨a1, a2, a3⟩ := a
  obtain ⟨b1, b2, b3⟩ := b
  unfold interpolateRGB
  rw [pyInt_congr (a := a1) (by ring), pyInt_congr (a := a2) (by ring),
    pyInt_congr (a := a3) (by ring)]

theorem interpolateRGB_one (a b : ColorRGB) : interpolateRGB a b 1 = b := by
  obtain ⟨a1, a2, a3⟩ := a
  obtain ⟨b1, b2, b3⟩ := b
  unfold interpolateRGB
  rw [pyInt_congr (a := b1) (by ring), pyInt_congr (a := b2) (by ring),
    pyInt_congr (a := b3) (by ring)]

/-! ### Claim C8 -/

/-- C8: `interpolate_color` satisfies the endpoint and identity laws: for
any parsed colours and factor `f ∈ [0, 1]`,
`interpolate(colorA, colorA, f) = colorA`,
`interpolate(colorA, colorB, 0) = colorA` and
`interpolate(colorA, colorB, 1) = colorB` exactly. -/
theorem C8_interpolate_laws (cA cB : List Char) (a b : ColorRGB) (f : ℚ)
    (hA : hex_to_rgb cA = some a) (hB : hex_to_rgb cB = some b)
    (hf0 : 0 ≤ f) (hf1 : f ≤ 1) :
    interpolate_color cA cA f = some a ∧
    interpolate_color cA cB 0 = some a ∧
    interpolate_color cA cB 1 = some b := by
  refine ⟨?_, ?_, ?_⟩ <;> unfold interpolate_color <;> rw [hA] <;> try rw [hB]
  · show some (interpolateRGB a a f) = some a
    rw [interpolateRGB_self]
  · show some (interpolateRGB a b 0) = some a
    rw [interpolateRGB_zero]
  · show some (interpolateRGB a b 1) = some b
    rw [interpolateRGB_one]

/-- Witness for C8 at the script's own colour constants with `f = 1`. -/
theorem C8_interpolate_laws_witness :
    (hex_to_rgb COLOR_START = some (112, 209, 199) ∧
     hex_to_rgb COLOR_END = some (91, 191, 181) ∧
     (0 : ℚ) ≤ 1 ∧ (1 : ℚ) ≤ 1) ∧
    (interpolate_color COLOR_START COLOR_START 1 = some (112, 209, 199) ∧
     interpolate_color COLOR_START COLOR_END 0 = some (112, 209, 199) ∧
     interpolate_color COLOR_START COLOR_END 1 = some (91, 191, 181)) :=
  ⟨⟨hex_start, hex_end, by decide, by decide⟩,
    C8_interpolate_laws COLOR_START COLOR_END (112, 209, 199) (91, 191, 181) 1
      hex_start hex_end (by decide) (by decide)⟩

/-! ### Claim C4 -/

theorem parseHex_some_of_hex {l : List Char} (hne : l ≠ [])
    (h : ∀ c ∈ l, (hexDigit? c).isSome = true) :
    ∃ v, parseHex l = some v := by
  obtain ⟨v, hv⟩ := parseHexDigits_total h 0
  exact ⟨v, by rw [parseHex, if_neg hne]; exact hv⟩

/-- C4 counterexample: `hex_to_rgb` does not validate that the input has
exactly 6 hex digits.  A 7-hex-digit string succeeds (the 7th digit is
ignored), a 5-hex-digit string succeeds (the last slice has one digit), and
repeated `'#'` prefixes are all stripped — in each case the claim requires
failure, but the code returns a value. -/
theorem C4_counterexample :
    hex_to_rgb ['1', '2', '3', '4', '5', '6', '7'] = some (18, 52, 86) ∧
    hex_to_rgb ['1', '2', '3', '4', '5'] = some (18, 52, 5) ∧
    hex_to_rgb ['#', '#', '1', '2', '3', '4', '5', '6'] = some (18, 52, 86) := by
  refine ⟨by decide, by decide, by decide⟩

/-- C4 (amended): `hex_to_rgb` strips every leading `'#'` and parses the
slices `[0:2]`, `[2:4]`, `[4:6]`; any string of at least 5 hexadecimal
digits (not only exactly 6) is accepted, with or without a `'#'` prefix,
and yields three 8-bit channel values; it fails only when one of the three
slices is empty or contains a non-hex character. -/
theorem C4_hex_parsing (s : List Char)
    (hhex : ∀ c ∈ s, (hexDigit? c).isSome = true) (hlen : 5 ≤ s.length) :
    ∃ r g b : ℤ, hex_to_rgb s = some (r, g, b) ∧
      hex_to_rgb ('#' :: s) = some (r, g, b) ∧
      0 ≤ r ∧ r ≤ 255 ∧ 0 ≤ g ∧ g ≤ 255 ∧ 0 ≤ b ∧ b ≤ 255 := by
  rcases s with - | ⟨a, s1⟩
  · simp at hlen
  rcases s1 with - | ⟨b, s2⟩
  · simp at hlen
  rcases s2 with - | ⟨c, s3⟩
  · simp at hlen
  rcases s3 with - | ⟨d, s4⟩
  · simp at hlen
  rcases s4 with - | ⟨e, rest⟩
  · simp at hlen
  have ha : a ≠ '#' := by
    intro hEq
    have := hhex a (by simp)
    rw [hEq] at this
    simp [hexDigit?] at this
  have hstrip : lstripHash (a :: b :: c :: d :: e :: rest) =
      a :: b :: c :: d :: e :: rest := by
    simp [lstripHash, List.dropWhile_cons, ha]
  have hstrip2 : lstripHash ('#' :: a :: b :: c :: d :: e :: rest) =
      a :: b :: c :: d :: e :: rest := by
    simp [lstripHash, List.dropWhile_cons, ha]
  obtain ⟨v1, hv1⟩ := parseHex_some_of_hex (l := [a, b]) (by simp)
    (by
      intro x hx
      rcases List.mem_pair.mp hx with rfl | rfl
      · exact hhex x (by simp)
      · exact hhex x (by simp))
  obtain ⟨v2, hv2⟩ := parseHex_some_of_hex (l := [c, d]) (by simp)
    (by
      intro x hx
      rcases List.mem_pair.mp hx with rfl | rfl
      · exact hhex x (by simp)
      · exact hhex x (by simp))
  obtain ⟨v3, hv3⟩ := parseHex_some_of_hex (l := e :: rest.take 1) (by simp)
    (by
      intro x hx
      rcases List.mem_cons.mp hx with rfl | hx'
      · exact hhex x (by simp)
      · exact hhex x (by simp [List.mem_cons, Or.inr (List.take_subset 1 rest hx')]))
  have hb1 := parseHex_le2_bound (l := [a, b]) (by simp) hv1
  have hb2 := parseHex_le2_bound (l := [c, d]) (by simp) hv2
  have hb3 := parseHex_le2_bound (l := e :: rest.take 1) (by simp) hv3
  refine ⟨v1, v2, v3, ?_, ?_, hb1.1, hb1.2, hb2.1, hb2.2, hb3.1, hb3.2⟩
  · refine hex_to_rgb_eq_some.mpr ⟨?_, ?_, ?_⟩ <;> rw [hstrip]
    · exact hv1
    · exact hv2
    · exact hv3
  · refine hex_to_rgb_eq_some.mpr ⟨?_, ?_, ?_⟩ <;> rw [hstrip2]
    · exact hv1
    · exact hv2
    · exact hv3

/-- Witness for C4 at the 6-digit constant `COLOR_END` (`"5bbfb5"`). -/
theorem C4_hex_parsing_witness :
    ((∀ c ∈ COLOR_END, (hexDigit? c).isSome = true) ∧ 5 ≤ COLOR_END.length) ∧
    (∃ r g b : ℤ, hex_to_rgb COLOR_END = some (r, g, b) ∧
      hex_to_rgb ('#' :: COLOR_END) = some (r, g, b) ∧
      0 ≤ r ∧ r ≤ 255 ∧ 0 ≤ g ∧ g ≤ 255 ∧ 0 ≤ b ∧ b ≤ 255) :=
  ⟨⟨by decide, by decide⟩, C4_hex_parsing COLOR_END (by decide) (by decide)⟩

/-! ### Claim C5 -/

/-- C5 counterexample: with channel values 0 and 2 (both in [0, 255]) and
factor -3/4, the code computes `int(0 + (2-0) * (-3/4)) = int(-1.5) = -1`
(truncation toward zero), while the claim's formula `floor` gives -2. -/
theorem C5_counterexample :
    interpolate_color ['0', '0', '0', '0', '0', '0'] ['0', '2', '0', '0', '0', '0']
      (-(3 / 4) : ℚ) = some (-1, 0, 0) ∧
    ⌊(0 : ℚ) + ((2 : ℚ) - (0 : ℚ)) * (-(3 / 4) : ℚ)⌋ = -2 := by
  have hz : hex_to_rgb ['0', '0', '0', '0', '0', '0'] = some (0, 0, 0) := by decide
  have ht : hex_to_rgb ['0', '2', '0', '0', '0', '0'] = some (2, 0, 0) := by decide
  constructor
  · unfold interpolate_color
    rw [hz, ht]
    show some (interpolateRGB (0, 0, 0) (2, 0, 0) (-(3 / 4))) = some (-1, 0, 0)
    unfold interpolateRGB
    norm_num [pyInt]
  · norm_num

/-- C5 (amended): each channel of `interpolate_color` is the truncation
toward zero of `a + (b - a) * factor` (Python `int()`), which coincides
with the floor exactly when the value is nonnegative — in particular for
every factor in `[0, 1]`, where the channel values in `[0, 255]` keep the
interpolant nonnegative.  For factors outside `[0, 1]` the interpolant can
be negative and truncation differs from the floor. -/
theorem C5_interpolate_floor (c1 c2 : List Char) (a b : ColorRGB) (f : ℚ)
    (h1 : hex_to_rgb c1 = some a) (h2 : hex_to_rgb c2 = some b)
    (hf0 : 0 ≤ f) (hf1 : f ≤ 1) :
    interpolate_color c1 c2 f =
      some (⌊(a.1 : ℚ) + ((b.1 : ℚ) - (a.1 : ℚ)) * f⌋,
            ⌊(a.2.1 : ℚ) + ((b.2.1 : ℚ) - (a.2.1 : ℚ)) * f⌋,
            ⌊(a.2.2 : ℚ) + ((b.2.2 : ℚ) - (a.2.2 : ℚ)) * f⌋) := by
  obtain ⟨a1, a2, a3⟩ := a
  obtain ⟨b1, b2, b3⟩ := b
  have ba := hex_to_rgb_bounds h1
  have bb := hex_to_rgb_bounds h2
  have key : ∀ u v : ℤ, 0 ≤ u → 0 ≤ v →
      pyInt ((u : ℚ) + ((v : ℚ) - (u : ℚ)) * f) =
        ⌊(u : ℚ) + ((v : ℚ) - (u : ℚ)) * f⌋ := by
    intro u v hu hv
    apply pyInt_of_nonneg
    have hu' : (0 : ℚ) ≤ (u : ℚ) := by exact_mod_cast hu
    have hv' : (0 : ℚ) ≤ (v : ℚ) := by exact_mod_cast hv
    have e : (u : ℚ) + ((v : ℚ) - (u : ℚ)) * f = (u : ℚ) * (1 - f) + (v : ℚ) * f := by
      ring
    rw [e]
    have t1 : (0 : ℚ) ≤ (u : ℚ) * (1 - f) := mul_nonneg hu' (by linarith)
    have t2 : (0 : ℚ) ≤ (v : ℚ) * f := mul_nonneg hv' hf0
    linarith
  unfold interpolate_color
  rw [h1, h2]
  show some (interpolateRGB (a1, a2, a3) (b1, b2, b3) f) = _
  unfold interpolateRGB
  rw [key a1 b1 ba.1 bb.1, key a2 b2 ba.2.2.1 bb.2.2.1,
    key a3 b3 ba.2.2.2.2.1 bb.2.2.2.2.1]

/-- Witness for C5 at the script's colour constants with `f = 1`. -/
theorem C5_interpolate_floor_witness :
    (hex_to_rgb COLOR_START = some (112, 209, 199) ∧
     hex_to_rgb COLOR_END = some (91, 191, 181) ∧
     (0 : ℚ) ≤ 1 ∧ (1 : ℚ) ≤ 1) ∧
    interpolate_color COLOR_START COLOR_END 1 =
      some (⌊((112 : ℤ) : ℚ) + (((91 : ℤ) : ℚ) - ((112 : ℤ) : ℚ)) * 1⌋,
            ⌊((209 : ℤ) : ℚ) + (((191 : ℤ) : ℚ) - ((209 : ℤ) : ℚ)) * 1⌋,
            ⌊((199 : ℤ) : ℚ) + (((181 : ℤ) : ℚ) - ((199 : ℤ) : ℚ)) * 1⌋) :=
  ⟨⟨hex_start, hex_end, by decide, by decide⟩,
    C5_interpolate_floor COLOR_START COLOR_END (112, 209, 199) (91, 191, 181) 1
      hex_start hex_end (by decide) (by decide)⟩

/-! ### Claim C6 -/

/-- C6 counterexample: at size 17 the code computes
`int(17 * 0.45) = int(7.65) = 7`, while rounding to the nearest integer
gives 8; the claimed formula `round(0.45 * size)` does not match the code. -/
theorem C6_counterexample :
    font_size 17 = 7 ∧ round (((17 : ℕ) : ℚ) * (45 / 100)) = 8 ∧
    font_size 17 ≠ round (((17 : ℕ) : ℚ) * (45 / 100)) := by
  have e1 : font_size 17 = 7 := by
    unfold font_size
    norm_num [pyInt]
  have e2 : round (((17 : ℕ) : ℚ) * (45 / 100)) = 8 := by
    rw [round_eq]
    norm_num
  exact ⟨e1, e2, by rw [e1, e2]; decide⟩

/-- C6 (amended): for every size, `draw_text`'s target font size is
`int(size * 0.45)`, i.e. the floor (truncation) of `0.45 * size`, not the
nearest integer. -/
theorem C6_font_size_floor (size : ℕ) :
    font_size size = ⌊(size : ℚ) * (45 / 100)⌋ :=
  pyInt_of_nonneg (by positivity)

/-! ### Claim C7 -/

theorem iconRadius_eq_floor (size : ℕ) :
    iconRadius size = ⌊(size : ℚ) * (2 / 10)⌋ :=
  pyInt_of_nonneg (by positivity)

/-- C7 counterexample: for the generated 16-pixel icon the radius passed to
`add_rounded_corners` is `int(16 * 0.2) = 3`, which is not `0.2 × 16 =
3.2`. -/
theorem C7_counterexample :
    (⟨16, "favicon-16.png"⟩ : IconConfig) ∈ ICON_CONFIGS ∧
    iconRadius 16 = 3 ∧ ((iconRadius 16 : ℤ) : ℚ) ≠ (16 : ℚ) * (2 / 10) := by
  have e1 : iconRadius 16 = 3 := by
    unfold iconRadius
    norm_num [pyInt]
  refine ⟨List.Mem.head _, e1, ?_⟩
  rw [e1]
  norm_num

/-- C7 (amended): for every icon generated, the corner radius passed to
`add_rounded_corners` is `int(size * 0.2)`, the floor of `0.2 × size`
(exactly `0.2 × size` only when `size` is a multiple of 5). -/
theorem C7_icon_radius (cfg : IconConfig) (hmem : cfg ∈ ICON_CONFIGS) :
    iconRadius cfg.size = ⌊(cfg.size : ℚ) * (2 / 10)⌋ :=
  iconRadius_eq_floor cfg.size

/-- Witness for C7 at the 16-pixel configuration. -/
theorem C7_icon_radius_witness :
    ((⟨16, "favicon-16.png"⟩ : IconConfig) ∈ ICON_CONFIGS) ∧
    iconRadius 16 = ⌊((16 : ℕ) : ℚ) * (2 / 10)⌋ :=
  ⟨List.Mem.head _,
    C7_icon_radius ⟨16, "favicon-16.png"⟩ (List.Mem.head _)⟩

/-! ### Claim C10 -/

/-- C10 counterexample: at size 32 the bottom row's colour,
`interpolate_color(COLOR_START, COLOR_END, 31/32)`, is exactly
`(91, 191, 181)` — which is `hex_to_rgb(COLOR_END)` itself, because the
per-channel truncation collapses the last step of the gradient.  The end
colour is therefore painted exactly on row 31, contrary to the claim. -/
theorem C10_counterexample :
    interpolate_color COLOR_START COLOR_END (((31 : ℕ) : ℚ) / ((32 : ℕ) : ℚ)) =
      some (91, 191, 181) ∧
    hex_to_rgb COLOR_END = some (91, 191, 181) ∧
    (create_gradient_background 32).px 0 31 = (91, 191, 181, 255) := by
  have e1 : interpolate_color COLOR_START COLOR_END (((31 : ℕ) : ℚ) / ((32 : ℕ) : ℚ)) =
      some (91, 191, 181) := by
    rw [interpolate_color_const]
    unfold interpolateRGB
    norm_num [pyInt]
  refine ⟨e1, hex_end, ?_⟩
  rw [gradient_px (by omega) (by omega)]
  have e2 : gradColor 32 31 = (91, 191, 181) := by
    unfold gradColor
    rw [e1]
    rfl
  rw [e2]

/-- C10 (amended): in `create_gradient_background` the row factor `y/size`
ranges only over `[0, (size-1)/size]`; the start colour is painted exactly
on row 0, and the bottom row's colour is
`interpolate(colorStart, colorEnd, (size-1)/size)` — which, because of the
per-channel integer truncation, can coincide exactly with `colorEnd`
(it does for every generated size above 21, e.g. size 32). -/
theorem C10_factor_range (s x y : ℕ) (hs : 0 < s) (hx : x < s) (hy : y < s) :
    (0 ≤ (y : ℚ) / (s : ℚ) ∧ (y : ℚ) / (s : ℚ) ≤ ((s : ℚ) - 1) / (s : ℚ)) ∧
    ((create_gradient_background s).px x 0 = (112, 209, 199, 255) ∧
     hex_to_rgb COLOR_START = some (112, 209, 199)) ∧
    ∃ c : ColorRGB,
      interpolate_color COLOR_START COLOR_END (((s : ℚ) - 1) / (s : ℚ)) = some c ∧
      (create_gradient_background s).px x (s - 1) = (c.1, c.2.1, c.2.2, 255) := by
  have hs' : (0 : ℚ) < (s : ℚ) := by exact_mod_cast hs
  have hcast : (((s - 1 : ℕ)) : ℚ) = (s : ℚ) - 1 := by
    have h1 : (1 : ℕ) ≤ s := hs
    push_cast [h1]
    ring
  refine ⟨⟨?_, ?_⟩, ⟨?_, hex_start⟩, gradColor s (s - 1), ?_, ?_⟩
  · positivity
  · have hnum : ((y : ℕ) : ℚ) + 1 ≤ (s : ℚ) := by
      exact_mod_cast Nat.succ_le_of_lt hy
    exact (div_le_div_iff_of_pos_right hs').mpr (by linarith)
  · rw [gradient_px hx hs]
    have e0 : gradColor s 0 = (112, 209, 199) := by
      rw [gradColor_eq]
      norm_num [interpolateRGB_zero]
    rw [e0]
  · rw [interpolate_color_const, gradColor_eq, hcast]
  · rw [gradient_px hx (by omega)]

/-- Witness for C10 at size 2, column 0, row 1. -/
theorem C10_factor_range_witness :
    (0 < 2 ∧ 0 < 2 ∧ 1 < 2) ∧
    ((0 ≤ ((1 : ℕ) : ℚ) / ((2 : ℕ) : ℚ) ∧
      ((1 : ℕ) : ℚ) / ((2 : ℕ) : ℚ) ≤ (((2 : ℕ) : ℚ) - 1) / ((2 : ℕ) : ℚ)) ∧
     ((create_gradient_background 2).px 0 0 = (112, 209, 199, 255) ∧
      hex_to_rgb COLOR_START = some (112, 209, 199)) ∧
     ∃ c : ColorRGB,
       interpolate_color COLOR_START COLOR_END
         ((((2 : ℕ) : ℚ) - 1) / ((2 : ℕ) : ℚ)) = some c ∧
       (create_gradient_background 2).px 0 (2 - 1) = (c.1, c.2.1, c.2.2, 255)) :=
  ⟨⟨by decide, by decide, by decide⟩,
    C10_factor_range 2 0 1 (by decide) (by decide) (by decide)⟩

/-! ### Claim C9 -/

/-- C9: for every combination of outcomes of the three system-font load
attempts (each may fail arbitrarily), `draw_text` recovers by falling
through to the next candidate and finally to the built-in default font —
font selection is total, and generation still yields a full size×size image
for every spec; in particular when no system font loads, the default font is
used and nothing fails. -/
theorem C9_font_fallback (env : FontEnv) (cfg : IconConfig)
    (hmem : cfg ∈ ICON_CONFIGS) :
    ((generate_icon env cfg).2.width = cfg.size ∧
     (generate_icon env cfg).2.height = cfg.size) ∧
    ((∀ p fs, env.truetype p fs = none) →
      ∀ fs, selectFont env fs = env.load_default) := by
  refine ⟨⟨generate_icon_width env cfg, generate_icon_height env cfg⟩, ?_⟩
  intro h fs
  unfold selectFont
  rw [h MAC_FONT fs, h LINUX_FONT fs, h WIN_FONT fs]

/-- A font environment in which every system font load fails; used to
witness C9. -/
def noFontEnv : FontEnv :=
  ⟨fun _ _ => none, ⟨fun _ => (0, 0, 0, 0), fun _ _ _ => false⟩⟩

/-- Witness for C9: the 16-pixel config under an environment where no
system font loads. -/
theorem C9_font_fallback_witness :
    ((⟨16, "favicon-16.png"⟩ : IconConfig) ∈ ICON_CONFIGS) ∧
    (((generate_icon noFontEnv ⟨16, "favicon-16.png"⟩).2.width = 16 ∧
      (generate_icon noFontEnv ⟨16, "favicon-16.png"⟩).2.height = 16) ∧
     ((∀ p fs, noFontEnv.truetype p fs = none) →
       ∀ fs, selectFont noFontEnv fs = noFontEnv.load_default)) :=
  ⟨List.Mem.head _,
    C9_font_fallback noFontEnv ⟨16, "favicon-16.png"⟩ (List.Mem.head _)⟩

/-! ### Claim C3 -/

/-- C3 counterexample: the claim quantifies over every positive size and
every radius `0 < r ≤ size/2`, but it fails for tiny canvases.  At size 1
(radius 1/4) the canvas centre pixel is the corner pixel `(0, 0)`, whose
mask value is 0 — the claim simultaneously requires 0 (corner) and 255
(centre) at the same pixel.  At size 2 with radius 1 (`≤ size/2`) the centre
pixel `(1, 1)` lies in the cut bottom-right corner region, so its alpha is
0, not the required 255. -/
theorem C3_counterexample :
    ((add_rounded_corners (Image.new 1) (1 / 4)).px 0 0).2.2.2 = 0 ∧
    ((add_rounded_corners (Image.new 2) 1).px 1 1).2.2.2 = 0 := by
  constructor
  · show roundedMaskAt 1 (1 / 4) 0 0 = 0
    have hout : outTL (1 / 4) 0 0 := by
      unfold outTL
      norm_num
    unfold roundedMaskAt
    rw [if_neg]
    rintro ⟨-, -, hin⟩
    exact hin (Or.inl hout)
  · show roundedMaskAt 2 1 1 1 = 0
    have hout : outBR 2 1 1 1 := by
      unfold outBR
      norm_num
    unfold roundedMaskAt
    rw [if_neg]
    rintro ⟨-, -, hin⟩
    exact hin (Or.inr (Or.inr (Or.inr hout)))

/-- Arithmetic core of the centre-pixel proof: a pixel at coordinate `cq`
with `cq < r ≤ cq + 1/2` and `1 ≤ cq` lies inside the quarter disc of
radius `r` centred at `(r, r)`-offset `r - cq` diagonally. -/
theorem quarter_disc_center_aux {r cq : ℚ} (h1 : cq < r) (he : r ≤ cq + 1 / 2)
    (hc : 1 ≤ cq) (h3 : r ^ 2 < (r - cq) ^ 2 + (r - cq) ^ 2) : False := by
  have e0 : 0 < r - cq := by linarith
  have e1 : r - cq ≤ 1 / 2 := by linarith
  have e3 : (r - cq) ^ 2 ≤ 1 / 4 := by
    nlinarith [mul_nonneg e0.le (by linarith : (0 : ℚ) ≤ 1 / 2 - (r - cq))]
  have e4 : 1 < r ^ 2 := by
    nlinarith [mul_pos (by linarith : (0 : ℚ) < r - 1)
      (by linarith : (0 : ℚ) < r + 1)]
  linarith

/-- C3 (amended): for every square canvas of size at least 3 and every
radius with `0 < radius ≤ size/2`, `add_rounded_corners` assigns the
rounded-rectangle mask as the canvas's alpha channel wholesale (replacing,
not blending, any prior alpha), the mask is 0 at the four corner pixels
`(0,0)`, `(size-1,0)`, `(0,size-1)`, `(size-1,size-1)`, and the mask is 255
at the canvas centre pixel `(size/2, size/2)`.  (Sizes 1 and 2 are excluded:
there the corner discs cover or cut the centre pixel, see the
counterexample.) -/
theorem C3_rounded_corners (s : ℕ) (r : ℚ) (img : Image) (x y : ℕ)
    (hs : 3 ≤ s) (hw : img.width = s) (hr0 : 0 < r) (hr2 : r ≤ (s : ℚ) / 2) :
    (add_rounded_corners img r).px x y =
      ((img.px x y).1, (img.px x y).2.1, (img.px x y).2.2.1,
        roundedMaskAt s r x y) ∧
    roundedMaskAt s r 0 0 = 0 ∧
    roundedMaskAt s r (s - 1) 0 = 0 ∧
    roundedMaskAt s r 0 (s - 1) = 0 ∧
    roundedMaskAt s r (s - 1) (s - 1) = 0 ∧
    roundedMaskAt s r (s / 2) (s / 2) = 255 := by
  have hs1 : (1 : ℕ) ≤ s := by omega
  have hcast : ((s - 1 : ℕ) : ℚ) = (s : ℚ) - 1 := by
    push_cast [hs1]
    ring
  have mask0 : ∀ X Y : ℕ,
      (outTL r X Y ∨ outTR s r X Y ∨ outBL s r X Y ∨ outBR s r X Y) →
      roundedMaskAt s r X Y = 0 := by
    intro X Y hcut
    unfold roundedMaskAt
    rw [if_neg]
    rintro ⟨-, -, hin⟩
    exact hin hcut
  have cTL : outTL r 0 0 := by
    unfold outTL
    push_cast
    refine ⟨hr0, hr0, by nlinarith [mul_pos hr0 hr0]⟩
  have cTR : outTR s r (s - 1) 0 := by
    unfold outTR
    rw [hcast]
    push_cast
    refine ⟨by linarith, hr0, by nlinarith [mul_pos hr0 hr0]⟩
  have cBL : outBL s r 0 (s - 1) := by
    unfold outBL
    rw [hcast]
    push_cast
    refine ⟨hr0, by linarith, by nlinarith [mul_pos hr0 hr0]⟩
  have cBR : outBR s r (s - 1) (s - 1) := by
    unfold outBR
    rw [hcast]
    refine ⟨by linarith, by linarith, by nlinarith [mul_pos hr0 hr0]⟩
  have h2c1 : s ≤ 2 * (s / 2) + 1 := by omega
  have h2c2 : 2 * (s / 2) ≤ s := by omega
  have hc1n : (1 : ℕ) ≤ s / 2 := by omega
  set c := s / 2 with hc
  have hcQ1 : (s : ℚ) ≤ 2 * (c : ℚ) + 1 := by exact_mod_cast h2c1
  have hcQ2 : 2 * (c : ℚ) ≤ (s : ℚ) := by exact_mod_cast h2c2
  have hcQ3 : (1 : ℚ) ≤ (c : ℚ) := by exact_mod_cast hc1n
  have hinC : insideRoundedRect s r c c := by
    unfold insideRoundedRect outTL outTR outBL outBR
    rintro (⟨h1, h2, h3⟩ | ⟨h1, h2, h3⟩ | ⟨h1, h2, h3⟩ | ⟨h1, h2, h3⟩)
    · -- top-left: r > c ≥ 1 forces r² > 1, but the distance² is ≤ 1/2
      exact quarter_disc_center_aux h1 (by linarith) hcQ3 h3
    · -- top-right: c < r ≤ s/2 forces s = 2c+1, then as in the TL case
      have hlt : 2 * c < s := by
        have : 2 * (c : ℚ) < (s : ℚ) := by linarith
        exact_mod_cast this
      have hseq : s = 2 * c + 1 := by omega
      have hsEq : (s : ℚ) = 2 * (c : ℚ) + 1 := by exact_mod_cast hseq
      have hrw : (c : ℚ) - ((s : ℚ) - 1 - r) = r - (c : ℚ) := by
        rw [hsEq]
        ring
      rw [hrw] at h3
      exact quarter_disc_center_aux h2 (by linarith) hcQ3 h3
    · -- bottom-left: symmetric to top-right
      have hlt : 2 * c < s := by
        have : 2 * (c : ℚ) < (s : ℚ) := by linarith
        exact_mod_cast this
      have hseq : s = 2 * c + 1 := by omega
      have hsEq : (s : ℚ) = 2 * (c : ℚ) + 1 := by exact_mod_cast hseq
      have hrw : (c : ℚ) - ((s : ℚ) - 1 - r) = r - (c : ℚ) := by
        rw [hsEq]
        ring
      rw [hrw] at h3
      exact quarter_disc_center_aux h1 (by linarith) hcQ3 h3
    · -- bottom-right: split on the parity of s
      have hpar : s = 2 * c ∨ s = 2 * c + 1 := by omega
      rcases hpar with hseq | hseq
      · have hsEq : (s : ℚ) = 2 * (c : ℚ) := by exact_mod_cast hseq
        have hc2n : (2 : ℕ) ≤ c := by omega
        have hc2 : (2 : ℚ) ≤ (c : ℚ) := by exact_mod_cast hc2n
        have hrw : (c : ℚ) - ((s : ℚ) - 1 - r) = r - (c : ℚ) + 1 := by
          rw [hsEq]
          ring
        rw [hrw] at h3
        have ht1 : (c : ℚ) - r < 1 := by linarith
        have ht0 : (0 : ℚ) ≤ (c : ℚ) - r := by linarith
        have hA : (0 : ℚ) ≤ ((c : ℚ) - 2) * (2 * r - (c : ℚ) + 2) :=
          mul_nonneg (by linarith) (by linarith)
        have hB : (0 : ℚ) < (1 - ((c : ℚ) - r)) * (1 + ((c : ℚ) - r)) :=
          mul_pos (by linarith) (by linarith)
        nlinarith [hA, hB, h3]
      · have hsEq : (s : ℚ) = 2 * (c : ℚ) + 1 := by exact_mod_cast hseq
        have hrw : (c : ℚ) - ((s : ℚ) - 1 - r) = r - (c : ℚ) := by
          rw [hsEq]
          ring
        rw [hrw] at h3
        exact quarter_disc_center_aux (by linarith) (by linarith) hcQ3 h3
  have hcs : c < s := by omega
  have center255 : roundedMaskAt s r c c = 255 := by
    unfold roundedMaskAt
    rw [if_pos ⟨hcs, hcs, hinC⟩]
  refine ⟨?_, mask0 0 0 (Or.inl cTL), mask0 (s - 1) 0 (Or.inr (Or.inl cTR)),
    mask0 0 (s - 1) (Or.inr (Or.inr (Or.inl cBL))),
    mask0 (s - 1) (s - 1) (Or.inr (Or.inr (Or.inr cBR))), center255⟩
  rw [add_rounded_corners_px, hw]

/-- Witness for C3: a 16×16 canvas with the script's own radius 3. -/
theorem C3_rounded_corners_witness :
    (3 ≤ 16 ∧ (Image.new 16).width = 16 ∧ (0 : ℚ) < 3 ∧ (3 : ℚ) ≤ (16 : ℕ) / 2) ∧
    ((add_rounded_corners (Image.new 16) 3).px 5 7 =
      (((Image.new 16).px 5 7).1, ((Image.new 16).px 5 7).2.1,
        ((Image.new 16).px 5 7).2.2.1, roundedMaskAt 16 3 5 7) ∧
     roundedMaskAt 16 3 0 0 = 0 ∧
     roundedMaskAt 16 3 (16 - 1) 0 = 0 ∧
     roundedMaskAt 16 3 0 (16 - 1) = 0 ∧
     roundedMaskAt 16 3 (16 - 1) (16 - 1) = 0 ∧
     roundedMaskAt 16 3 (16 / 2) (16 / 2) = 255) :=
  ⟨⟨by decide, rfl, by decide, by norm_num⟩,
    C3_rounded_corners 16 3 (Image.new 16) 5 7 (by decide) rfl (by decide)
      (by norm_num)⟩
